import Mathlib

/-
  Verification development for the Airlines flight-data EDA pipeline
  (src/Airlines_EDA.py).

  The script is a single linear pandas pipeline:
    load CSV -> drop 'index' column -> map 'stops' to integers ->
    drop duplicate rows -> derive 'price_per_hour' and 'route' ->
    print a report -> render charts -> write the cleaned CSV.

  We shallowly embed the in-memory table and every transformation the
  script performs.  Floating-point cell values are modelled by exact
  rationals together with the IEEE special values +inf, -inf and NaN
  (pandas' NaN doubles as the missing-value marker, so it is a single
  constructor `na` here).  Fallible pandas operations (column access
  and `drop` raise KeyError when the label is absent) are modelled
  with `Except`.
-/

namespace AirlinesEDA

/-- A cell value: a string, a finite float (modelled exactly as a
rational), positive or negative infinity, or NaN — which in pandas is
also the missing-value marker. -/
inductive Value where
  | str (s : String)
  | num (q : ℚ)
  | inf
  | neginf
  | na
deriving DecidableEq

/-- Division of cell values, following IEEE / numpy semantics as used by
`df['price'] / df['duration']`: finite / finite nonzero is exact
division, finite nonzero / 0 is a signed infinity, 0 / 0 is NaN, NaN
propagates.  (Signed zeros are not distinguished; no operand
combination occurring in the pipeline depends on them.) -/
def vdiv : Value → Value → Value
  | .num a, .num b =>
      if b = 0 then (if a = 0 then .na else if 0 < a then .inf else .neginf)
      else .num (a / b)
  | .num _, .inf => .num 0
  | .num _, .neginf => .num 0
  | .inf, .num b => if 0 ≤ b then .inf else .neginf
  | .neginf, .num b => if 0 ≤ b then .neginf else .inf
  | _, _ => .na

/-- String concatenation of cell values, as used by
`df['source_city'] + " to " + df['destination_city']`; any non-string
operand (in particular NaN) yields NaN. -/
def vconcat : Value → Value → Value
  | .str a, .str b => .str (a ++ b)
  | _, _ => .na

/-- The fixed lookup used by `df['stops'].map({'zero': 0, 'one': 1,
'two_or_more': 2})`: values outside the dictionary map to NaN. -/
def stopsVal (v : Value) : Value :=
  if v = .str "zero" then .num 0
  else if v = .str "one" then .num 1
  else if v = .str "two_or_more" then .num 2
  else .na

/-- The in-memory table: an ordered list of column names and an ordered
list of rows, each row a list of cells aligned positionally with the
column list. -/
structure Table where
  cols : List String
  rows : List (List Value)
deriving DecidableEq

/-- Well-formedness: every row has exactly one cell per column. -/
def Table.WF (t : Table) : Prop := ∀ r ∈ t.rows, r.length = t.cols.length

instance : DecidablePred Table.WF := fun t =>
  decidable_of_iff (∀ r ∈ t.rows, r.length = t.cols.length) Iff.rfl

/-- Index of the first occurrence of `a` in a list (the list's length if
absent); used to resolve a column label to a cell position. -/
def idxOf {α : Type} [DecidableEq α] (a : α) : List α → Nat
  | [] => 0
  | b :: l => if b = a then 0 else idxOf a l + 1

/-- The cell of row `r` at the column labelled `c` of table `t` (NaN if
the label is absent or the row is too short). -/
def Table.cellAt (t : Table) (r : List Value) (c : String) : Value :=
  r.getD (idxOf c t.cols) Value.na

/-- All cells of the column labelled `c`, top to bottom. -/
def Table.colVals (t : Table) (c : String) : List Value :=
  t.rows.map (fun r => t.cellAt r c)

/-- Keep the cells of a row whose column name satisfies `p` (used to
embed dropping a column). -/
def selCells (p : String → Bool) : List String → List Value → List Value
  | _, [] => []
  | [], _ => []
  | c :: cs, v :: vs => if p c then v :: selCells p cs vs else selCells p cs vs

/-- Apply `f` to the cells of a row whose column name satisfies `p`
(used to embed assigning a mapped column). -/
def mapCells (p : String → Bool) (f : Value → Value) :
    List String → List Value → List Value
  | _, [] => []
  | [], _ => []
  | c :: cs, v :: vs => (if p c then f v else v) :: mapCells p f cs vs

/-- `df.drop(columns=[c], inplace=True)`: removes every column labelled
`c`; pandas raises KeyError (the default `errors='raise'`) when no
column has that label. -/
def dropCol (t : Table) (c : String) : Except String Table :=
  if c ∈ t.cols then
    .ok { cols := t.cols.filter (fun x => x != c),
          rows := t.rows.map (selCells (fun x => x != c) t.cols) }
  else
    .error ("KeyError: " ++ c)

/-- `df['stops'] = df['stops'].map({...})`: reading `df['stops']` raises
KeyError when the column is absent; otherwise every cell of the column
is replaced by its image under the lookup. -/
def cleanStops (t : Table) : Except String Table :=
  if "stops" ∈ t.cols then
    .ok { cols := t.cols,
          rows := t.rows.map (mapCells (fun c => c == "stops") stopsVal t.cols) }
  else
    .error "KeyError: stops"

/-- Scan a list left to right, keeping each element not already seen
(`seen` accumulates everything kept so far and everything seen before
the call). -/
def dropSeen {α : Type} [DecidableEq α] (seen : List α) : List α → List α
  | [] => []
  | r :: rs => if r ∈ seen then dropSeen seen rs else r :: dropSeen (r :: seen) rs

/-- `df.drop_duplicates(inplace=True)`: removes every row equal to an
earlier row (full-row equality, `keep='first'`), preserving the order
of the surviving rows. -/
def dedupRows (t : Table) : Table :=
  { cols := t.cols, rows := dropSeen [] t.rows }

/-- `df[c] = series`: pandas overwrites the column in place when the
label already exists and otherwise appends it as the last column; the
series is computed per row by `f` from the current row. -/
def Table.derive (t : Table) (c : String) (f : List Value → Value) : Table :=
  if c ∈ t.cols then
    { cols := t.cols, rows := t.rows.map (fun r => r.set (idxOf c t.cols) (f r)) }
  else
    { cols := t.cols ++ [c], rows := t.rows.map (fun r => r ++ [f r]) }

/-- The per-row value of `df['price'] / df['duration']`, with cell
positions resolved against the column list current at assignment time. -/
def pphFun (cols : List String) (r : List Value) : Value :=
  vdiv (r.getD (idxOf "price" cols) .na) (r.getD (idxOf "duration" cols) .na)

/-- The per-row value of
`df['source_city'] + " to " + df['destination_city']`. -/
def routeFun (cols : List String) (r : List Value) : Value :=
  vconcat (vconcat (r.getD (idxOf "source_city" cols) .na) (.str " to "))
    (r.getD (idxOf "destination_city" cols) .na)

/-- `df['price_per_hour'] = df['price'] / df['duration']`: reading
either operand column raises KeyError when absent. -/
def derivePricePerHour (t : Table) : Except String Table :=
  if "price" ∉ t.cols then .error "KeyError: price"
  else if "duration" ∉ t.cols then .error "KeyError: duration"
  else .ok (t.derive "price_per_hour" (pphFun t.cols))

/-- `df['route'] = df['source_city'] + " to " + df['destination_city']`. -/
def deriveRoute (t : Table) : Except String Table :=
  if "source_city" ∉ t.cols then .error "KeyError: source_city"
  else if "destination_city" ∉ t.cols then .error "KeyError: destination_city"
  else .ok (t.derive "route" (routeFun t.cols))

/-- The data-transforming part of `main()`, in source order: drop the
`index` column, map `stops`, drop duplicate rows, derive
`price_per_hour`, derive `route`. -/
def pipeline (t : Table) : Except String Table :=
  (dropCol t "index").bind (fun t1 =>
    (cleanStops t1).bind (fun t2 =>
      (derivePricePerHour (dedupRows t2)).bind (fun t4 =>
        deriveRoute t4)))

/-- The shape/column report printed after feature engineering. -/
def report (t : Table) : List String :=
  ["Final shape: (" ++ toString t.rows.length ++ ", " ++ toString t.cols.length ++ ")",
   "Columns: " ++ String.intercalate ", " t.cols]

/-- The numeric columns used by the histogram grid, the correlation
heatmap and the outlier boxplot grid. -/
def numericCols : List String := ["duration", "days_left", "price", "price_per_hour"]

/-- The categorical columns looped over for count plots. -/
def categoricalCols : List String :=
  ["airline", "source_city", "destination_city", "departure_time", "arrival_time", "class"]

/-- Stable insertion of `v` into a list sorted by descending
multiplicity in `vs`. -/
def insertByCount (vs : List Value) (v : Value) : List Value → List Value
  | [] => [v]
  | w :: ws => if vs.count w < vs.count v then v :: w :: ws else w :: insertByCount vs v ws

/-- Sort a list of values by descending multiplicity in `vs`. -/
def sortByCountDesc (vs : List Value) : List Value → List Value
  | [] => []
  | v :: rest => insertByCount vs v (sortByCountDesc vs rest)

/-- `df[col].value_counts().index`: the distinct values of a column,
most frequent first. -/
def countOrder (vs : List Value) : List Value :=
  sortByCountDesc vs (dropSeen [] vs)

/-- One rendered chart, abstracted as the data handed to the plotting
library (rendering itself is outside the model). -/
inductive Chart where
  | histGrid (data : List (String × List Value))
  | countPlot (col : String) (order : List Value) (data : List Value)
  | heatmap (data : List (String × List Value))
  | box (x : String) (y : String) (xs : List Value) (ys : List Value)
  | boxGrid (data : List (String × List Value))
deriving DecidableEq

/-- The Visualizer stage: renders the fixed chart sequence of the script
(histogram grid, six count plots, correlation heatmap, two price
boxplots, outlier boxplot grid), each computed from the table, and
passes the table on unchanged — the script never assigns to `df` in
this region. -/
def visualize (t : Table) : List Chart × Table :=
  (Chart.histGrid (numericCols.map (fun c => (c, t.colVals c)))
      :: categoricalCols.map (fun c =>
           Chart.countPlot c (countOrder (t.colVals c)) (t.colVals c))
    ++ [Chart.heatmap (numericCols.map (fun c => (c, t.colVals c))),
        Chart.box "airline" "price" (t.colVals "airline") (t.colVals "price"),
        Chart.box "class" "price" (t.colVals "class") (t.colVals "price"),
        Chart.boxGrid (numericCols.map (fun c => (c, t.colVals c)))],
   t)

/-- Render one cell for CSV output: strings are minimally quoted,
finite numbers printed, NaN becomes the empty field (pandas default),
infinities print as `inf` / `-inf`. -/
def cellStr : Value → String
  | .str s =>
      if s.contains ',' || s.contains '"' || s.contains '\n' then
        "\"" ++ (s.replace "\"" "\"\"") ++ "\""
      else s
  | .num q => toString q
  | .inf => "inf"
  | .neginf => "-inf"
  | .na => ""

/-- One CSV data line: the row's cells joined by commas — no positional
index is prepended (`index=False`). -/
def rowLine (r : List Value) : String := String.intercalate "," (r.map cellStr)

/-- All lines of the CSV: the header line first, then one line per row. -/
def csvLines (t : Table) : List String :=
  String.intercalate "," t.cols :: t.rows.map rowLine

/-- The serialized CSV text. -/
def toCsv (t : Table) : String :=
  String.intercalate "\n" (csvLines t) ++ "\n"

/-- The fixed output path of `df.to_csv('cleaned_airlines_data.csv',
index=False)`. -/
def outputPath : String := "cleaned_airlines_data.csv"

/-- The Writer stage: the path written to and the bytes written. -/
def writeOutput (t : Table) : String × String := (outputPath, toCsv t)

/-- The whole observable run on an in-memory input table: the cleaned
table's report, the chart sequence, and the output path and CSV text
(or the error the pipeline aborts with). -/
def fullRun (t : Table) : Except String (List String × List Chart × String × String) :=
  (pipeline t).map (fun tf =>
    let v := visualize tf
    (report v.2, v.1, writeOutput v.2))

/-! ### Concrete tables used by counterexamples and witnesses -/

/-- A loaded table with the schema of the input CSV, whose single row
has `duration = 0` and a positive price. -/
def c1T : Table :=
  { cols := ["index", "source_city", "destination_city", "stops", "duration", "price"],
    rows := [[.num 0, .str "Delhi", .str "Mumbai", .str "zero", .num 0, .num 100]] }

/-- The table the pipeline produces from `c1T`. -/
def c1Out : Table :=
  { cols := ["source_city", "destination_city", "stops", "duration", "price",
             "price_per_hour", "route"],
    rows := [[.str "Delhi", .str "Mumbai", .num 0, .num 0, .num 100, .inf,
              .str "Delhi to Mumbai"]] }

/-- The single row of `c1Out`. -/
def c1Row : List Value :=
  [.str "Delhi", .str "Mumbai", .num 0, .num 0, .num 100, .inf, .str "Delhi to Mumbai"]

/-- A loaded table that has no column named `index`. -/
def c4T : Table := { cols := ["stops"], rows := [[.str "one"]] }

/-- A two-row input with the full input schema: one row with
`stops = "two_or_more"`, one with an unmapped `stops` value, both with
`duration = 0`. -/
def exIn : Table :=
  { cols := ["index", "airline", "source_city", "destination_city", "departure_time",
             "arrival_time", "stops", "class", "duration", "days_left", "price"],
    rows := [[.num 0, .str "AirX", .str "Delhi", .str "Mumbai", .str "Morning",
              .str "Night", .str "two_or_more", .str "Economy", .num 0, .num 10, .num 5000],
             [.num 1, .str "AirX", .str "Delhi", .str "Mumbai", .str "Morning",
              .str "Night", .str "unknown", .str "Economy", .num 0, .num 10, .num 5000]] }

/-- The table the pipeline produces from `exIn`. -/
def exOut : Table :=
  { cols := ["airline", "source_city", "destination_city", "departure_time", "arrival_time",
             "stops", "class", "duration", "days_left", "price", "price_per_hour", "route"],
    rows := [[.str "AirX", .str "Delhi", .str "Mumbai", .str "Morning", .str "Night",
              .num 2, .str "Economy", .num 0, .num 10, .num 5000, .inf,
              .str "Delhi to Mumbai"],
             [.str "AirX", .str "Delhi", .str "Mumbai", .str "Morning", .str "Night",
              .na, .str "Economy", .num 0, .num 10, .num 5000, .inf,
              .str "Delhi to Mumbai"]] }

/-- The first row of `exOut`. -/
def exRow1 : List Value :=
  [.str "AirX", .str "Delhi", .str "Mumbai", .str "Morning", .str "Night",
   .num 2, .str "Economy", .num 0, .num 10, .num 5000, .inf, .str "Delhi to Mumbai"]

/-! ### Generic list lemmas -/

theorem idxOf_lt_length {α : Type} [DecidableEq α] {a : α} {l : List α} (h : a ∈ l) :
    idxOf a l < l.length := by
  induction l with
  | nil => cases h
  | cons b l ih =>
      by_cases hb : b = a
      · simp [idxOf, hb]
      · rcases List.mem_cons.mp h with h1 | h1
        · exact absurd h1.symm hb
        · simp only [idxOf, if_neg hb, List.length_cons]
          exact Nat.succ_lt_succ (ih h1)

theorem idxOf_append_left {α : Type} [DecidableEq α] {a : α} {l l' : List α} (h : a ∈ l) :
    idxOf a (l ++ l') = idxOf a l := by
  induction l with
  | nil => cases h
  | cons b l ih =>
      by_cases hb : b = a
      · simp [idxOf, hb]
      · rcases List.mem_cons.mp h with h1 | h1
        · exact absurd h1.symm hb
        · simp [idxOf, if_neg hb, ih h1]

theorem idxOf_cons_self {α : Type} [DecidableEq α] (a : α) (l : List α) :
    idxOf a (a :: l) = 0 := by
  simp [idxOf]

theorem idxOf_cons_ne {α : Type} [DecidableEq α] {a b : α} (l : List α) (h : b ≠ a) :
    idxOf a (b :: l) = idxOf a l + 1 := by
  simp [idxOf, h]

theorem idxOf_append_right {α : Type} [DecidableEq α] {a : α} {l l' : List α} (h : a ∉ l) :
    idxOf a (l ++ l') = l.length + idxOf a l' := by
  induction l with
  | nil => simp
  | cons b l ih =>
      have hb : b ≠ a := fun e => h (List.mem_cons.mpr (Or.inl e.symm))
      have ih' := ih (fun hm => h (List.mem_cons_of_mem _ hm))
      show idxOf a (b :: (l ++ l')) = (b :: l).length + idxOf a l'
      rw [idxOf_cons_ne _ hb, ih', List.length_cons]
      omega

theorem idxOf_getD {α : Type} [DecidableEq α] {a : α} {l : List α} (h : a ∈ l) (d : α) :
    l.getD (idxOf a l) d = a := by
  induction l with
  | nil => cases h
  | cons b l ih =>
      by_cases hb : b = a
      · simp [idxOf, hb]
      · rcases List.mem_cons.mp h with h1 | h1
        · exact absurd h1.symm hb
        · rw [idxOf_cons_ne _ hb, List.getD_cons_succ]
          exact ih h1

theorem getD_append_len {β : Type} (l : List β) (x : β) (l' : List β) (d : β) :
    (l ++ x :: l').getD l.length d = x := by
  induction l with
  | nil => rfl
  | cons b l ih => simpa using ih

/-! ### Lemmas about `selCells`, `mapCells`, and `dropSeen` -/

theorem selCells_length (p : String → Bool) :
    ∀ (cols : List String) (vs : List Value), vs.length = cols.length →
      (selCells p cols vs).length = (cols.filter p).length := by
  intro cols
  induction cols with
  | nil =>
      intro vs h
      cases vs with
      | nil => rfl
      | cons v vs => simp at h
  | cons c cs ih =>
      intro vs h
      cases vs with
      | nil => simp at h
      | cons v vs =>
          have h' : vs.length = cs.length := by simpa using h
          cases hp : p c <;>
            simp [selCells, List.filter_cons, hp, ih vs h']

theorem mapCells_length (p : String → Bool) (f : Value → Value) :
    ∀ (cols : List String) (vs : List Value), vs.length = cols.length →
      (mapCells p f cols vs).length = vs.length := by
  intro cols
  induction cols with
  | nil =>
      intro vs h
      cases vs with
      | nil => rfl
      | cons v vs => simp at h
  | cons c cs ih =>
      intro vs h
      cases vs with
      | nil => simp at h
      | cons v vs =>
          have h' : vs.length = cs.length := by simpa using h
          simp [mapCells, ih vs h']

theorem mapCells_getD (p : String → Bool) (f : Value → Value) :
    ∀ (cols : List String) (vs : List Value) (i : Nat), i < cols.length → i < vs.length →
      (mapCells p f cols vs).getD i .na =
        if p (cols.getD i "") then f (vs.getD i .na) else vs.getD i .na := by
  intro cols
  induction cols with
  | nil => intro vs i hi _; simp at hi
  | cons c cs ih =>
      intro vs i hi hv
      cases vs with
      | nil => simp at hv
      | cons v vs =>
          cases i with
          | zero => simp [mapCells]
          | succ j =>
              have hj : j < cs.length := by simpa using hi
              have hjv : j < vs.length := by simpa using hv
              simpa [mapCells] using ih vs j hj hjv

theorem dropSeen_sublist {α : Type} [DecidableEq α] (seen : List α) (l : List α) :
    (dropSeen seen l).Sublist l := by
  induction l generalizing seen with
  | nil => simp [dropSeen]
  | cons y ys ih =>
      simp only [dropSeen]
      by_cases hy : y ∈ seen
      · rw [if_pos hy]
        exact (ih seen).cons y
      · rw [if_neg hy]
        exact (ih (y :: seen)).cons₂ y

theorem dropSeen_mem {α : Type} [DecidableEq α] (seen l : List α) (x : α) :
    x ∈ dropSeen seen l ↔ x ∈ l ∧ x ∉ seen := by
  induction l generalizing seen with
  | nil => simp [dropSeen]
  | cons y ys ih =>
      simp only [dropSeen]
      by_cases hy : y ∈ seen
      · rw [if_pos hy, ih]
        constructor
        · rintro ⟨hmem, hns⟩
          exact ⟨List.mem_cons_of_mem _ hmem, hns⟩
        · rintro ⟨hmem, hns⟩
          rcases List.mem_cons.mp hmem with rfl | hmem'
          · exact absurd hy hns
          · exact ⟨hmem', hns⟩
      · rw [if_neg hy]
        simp only [List.mem_cons, ih]
        constructor
        · rintro (rfl | ⟨hmem, hns⟩)
          · exact ⟨Or.inl rfl, hy⟩
          · exact ⟨Or.inr hmem, fun hs => hns (Or.inr hs)⟩
        · rintro ⟨hmem, hns⟩
          by_cases hxy : x = y
          · exact Or.inl hxy
          · rcases hmem with hxy' | hmem'
            · exact absurd hxy' hxy
            · refine Or.inr ⟨hmem', fun hs => ?_⟩
              rcases hs with hxy' | hs'
              · exact hxy hxy'
              · exact hns hs'

theorem dropSeen_nodup {α : Type} [DecidableEq α] (seen l : List α) :
    (dropSeen seen l).Nodup := by
  induction l generalizing seen with
  | nil => simp [dropSeen]
  | cons y ys ih =>
      simp only [dropSeen]
      by_cases hy : y ∈ seen
      · rw [if_pos hy]; exact ih seen
      · rw [if_neg hy]
        refine List.nodup_cons.mpr ⟨fun hmem => ?_, ih (y :: seen)⟩
        exact ((dropSeen_mem _ _ _).mp hmem).2 (List.mem_cons_self y seen)

theorem dropSeen_pairwise {α : Type} [DecidableEq α] (seen l : List α) :
    (dropSeen seen l).Pairwise (fun a b => idxOf a l < idxOf b l) := by
  induction l generalizing seen with
  | nil => simp [dropSeen]
  | cons y ys ih =>
      simp only [dropSeen]
      by_cases hy : y ∈ seen
      · rw [if_pos hy]
        refine (ih seen).imp_of_mem ?_
        intro a b ha hb hab
        obtain ⟨_, haS⟩ := (dropSeen_mem seen ys a).mp ha
        obtain ⟨_, hbS⟩ := (dropSeen_mem seen ys b).mp hb
        have haNe : y ≠ a := fun e => haS (e ▸ hy)
        have hbNe : y ≠ b := fun e => hbS (e ▸ hy)
        rw [idxOf_cons_ne _ haNe, idxOf_cons_ne _ hbNe]
        omega
      · rw [if_neg hy]
        refine List.pairwise_cons.mpr ⟨fun b hb => ?_, ?_⟩
        · obtain ⟨_, hbS⟩ := (dropSeen_mem _ _ _).mp hb
          have hbNe : y ≠ b := fun e => hbS (List.mem_cons.mpr (Or.inl e.symm))
          rw [idxOf_cons_self, idxOf_cons_ne _ hbNe]
          omega
        · refine (ih (y :: seen)).imp_of_mem ?_
          intro a b ha hb hab
          obtain ⟨_, haS⟩ := (dropSeen_mem _ _ _).mp ha
          obtain ⟨_, hbS⟩ := (dropSeen_mem _ _ _).mp hb
          have haNe : y ≠ a := fun e => haS (List.mem_cons.mpr (Or.inl e.symm))
          have hbNe : y ≠ b := fun e => hbS (List.mem_cons.mpr (Or.inl e.symm))
          rw [idxOf_cons_ne _ haNe, idxOf_cons_ne _ hbNe]
          omega

/-! ### Characterizing a successful pipeline run -/

theorem bind_ok_elim {ε α β : Type} {x : Except ε α} {f : α → Except ε β} {b : β}
    (h : x.bind f = .ok b) : ∃ a, x = .ok a ∧ f a = .ok b := by
  cases x with
  | ok a => exact ⟨a, rfl, h⟩
  | error e => simp [Except.bind] at h

theorem dropCol_ok {t t₁ : Table} {c : String} (h : dropCol t c = .ok t₁) :
    c ∈ t.cols ∧
      t₁ = ⟨t.cols.filter (fun x => x != c), t.rows.map (selCells (fun x => x != c) t.cols)⟩ := by
  by_cases hc : c ∈ t.cols
  · rw [dropCol, if_pos hc] at h
    exact ⟨hc, (Except.ok.inj h).symm⟩
  · rw [dropCol, if_neg hc] at h
    exact absurd h (by simp)

theorem cleanStops_ok {t t₂ : Table} (h : cleanStops t = .ok t₂) :
    "stops" ∈ t.cols ∧
      t₂ = ⟨t.cols, t.rows.map (mapCells (fun c => c == "stops") stopsVal t.cols)⟩ := by
  by_cases hc : "stops" ∈ t.cols
  · rw [cleanStops, if_pos hc] at h
    exact ⟨hc, (Except.ok.inj h).symm⟩
  · rw [cleanStops, if_neg hc] at h
    exact absurd h (by simp)

theorem derivePricePerHour_ok {t t₄ : Table} (h : derivePricePerHour t = .ok t₄) :
    "price" ∈ t.cols ∧ "duration" ∈ t.cols ∧
      t₄ = t.derive "price_per_hour" (pphFun t.cols) := by
  by_cases hp : "price" ∈ t.cols
  · by_cases hd : "duration" ∈ t.cols
    · rw [derivePricePerHour, if_neg (not_not_intro hp), if_neg (not_not_intro hd)] at h
      exact ⟨hp, hd, (Except.ok.inj h).symm⟩
    · rw [derivePricePerHour, if_neg (not_not_intro hp), if_pos hd] at h
      exact absurd h (by simp)
  · rw [derivePricePerHour, if_pos hp] at h
    exact absurd h (by simp)

theorem deriveRoute_ok {t t₅ : Table} (h : deriveRoute t = .ok t₅) :
    "source_city" ∈ t.cols ∧ "destination_city" ∈ t.cols ∧
      t₅ = t.derive "route" (routeFun t.cols) := by
  by_cases hs : "source_city" ∈ t.cols
  · by_cases hd : "destination_city" ∈ t.cols
    · rw [deriveRoute, if_neg (not_not_intro hs), if_neg (not_not_intro hd)] at h
      exact ⟨hs, hd, (Except.ok.inj h).symm⟩
    · rw [deriveRoute, if_neg (not_not_intro hs), if_pos hd] at h
      exact absurd h (by simp)
  · rw [deriveRoute, if_pos hs] at h
    exact absurd h (by simp)

theorem derive_of_not_mem {t : Table} {c : String} {f : List Value → Value}
    (h : c ∉ t.cols) :
    t.derive c f = ⟨t.cols ++ [c], t.rows.map (fun r => r ++ [f r])⟩ := by
  rw [Table.derive, if_neg h]

/-- Decomposition of a successful pipeline run: the intermediate table
`u` obtained after dropping `index`, mapping `stops` and removing
duplicate rows, from which the final table arises by appending the two
derived cells to every row. -/
theorem pipeline_ok_struct {t t' : Table} (hwf : t.WF)
    (h1 : "price_per_hour" ∉ t.cols) (h2 : "route" ∉ t.cols)
    (hok : pipeline t = .ok t') :
    ∃ u : Table,
      u.WF ∧
      "stops" ∈ u.cols ∧ "price" ∈ u.cols ∧ "duration" ∈ u.cols ∧
      "source_city" ∈ u.cols ∧ "destination_city" ∈ u.cols ∧
      "price_per_hour" ∉ u.cols ∧ "route" ∉ u.cols ∧
      u.cols = t.cols.filter (fun x => x != "index") ∧
      u.rows.Nodup ∧
      (∀ r ∈ u.rows, ∃ v : Value, r.getD (idxOf "stops" u.cols) .na = stopsVal v) ∧
      t'.cols = u.cols ++ ["price_per_hour", "route"] ∧
      t'.rows = u.rows.map (fun r =>
        r ++ [pphFun u.cols r,
              routeFun (u.cols ++ ["price_per_hour"]) (r ++ [pphFun u.cols r])]) := by
  rw [pipeline] at hok
  obtain ⟨t1, hd, hok2⟩ := bind_ok_elim hok
  obtain ⟨t2, hs, hok3⟩ := bind_ok_elim hok2
  obtain ⟨t4, hp, hr⟩ := bind_ok_elim hok3
  obtain ⟨hidx, ht1⟩ := dropCol_ok hd
  obtain ⟨hstops, ht2⟩ := cleanStops_ok hs
  obtain ⟨hprice, hdur, ht4⟩ := derivePricePerHour_ok hp
  obtain ⟨hsrc4, hdst4, ht5⟩ := deriveRoute_ok hr
  have ht1c : t1.cols = t.cols.filter (fun x => x != "index") := by rw [ht1]
  have ht2c : t2.cols = t1.cols := by rw [ht2]
  have hdc : (dedupRows t2).cols = t1.cols := by rw [dedupRows, ht2c]
  have hsubcols : ∀ x : String, x ∈ (dedupRows t2).cols → x ∈ t.cols := by
    intro x hx
    rw [hdc, ht1c] at hx
    exact (List.mem_filter.mp hx).1
  have hpph_not : "price_per_hour" ∉ (dedupRows t2).cols :=
    fun hmem => h1 (hsubcols _ hmem)
  have hroute_not : "route" ∉ (dedupRows t2).cols :=
    fun hmem => h2 (hsubcols _ hmem)
  have ht4e : t4 = ⟨(dedupRows t2).cols ++ ["price_per_hour"],
      (dedupRows t2).rows.map (fun r => r ++ [pphFun (dedupRows t2).cols r])⟩ := by
    rw [ht4, derive_of_not_mem hpph_not]
  have hroute_not4 : "route" ∉ t4.cols := by
    rw [ht4e]
    intro hmem
    rcases List.mem_append.mp hmem with hmem' | hmem'
    · exact hroute_not hmem'
    · simp at hmem'
  have ht5e : t' = ⟨t4.cols ++ ["route"],
      t4.rows.map (fun r => r ++ [routeFun t4.cols r])⟩ := by
    rw [ht5, derive_of_not_mem hroute_not4]
  -- well-formedness of the intermediate tables
  have hwf1 : t1.WF := by
    intro r hr1
    rw [ht1] at hr1
    obtain ⟨r0, hr0, rfl⟩ := List.mem_map.mp hr1
    rw [ht1c]
    exact selCells_length _ t.cols r0 (hwf r0 hr0)
  have hwf2 : t2.WF := by
    intro r hr2
    rw [ht2] at hr2
    obtain ⟨r1, hr1, rfl⟩ := List.mem_map.mp hr2
    rw [ht2c]
    exact (mapCells_length _ _ t1.cols r1 (hwf1 r1 hr1)).trans (hwf1 r1 hr1)
  have hmemd : ∀ r, r ∈ (dedupRows t2).rows → r ∈ t2.rows := by
    intro r hrd
    exact ((dropSeen_mem [] t2.rows r).mp hrd).1
  have hwfd : (dedupRows t2).WF := by
    intro r hrd
    rw [hdc, ← ht2c]
    exact hwf2 r (hmemd r hrd)
  -- the stops column of every surviving row is in the image of the lookup
  have hstops2 : "stops" ∈ (dedupRows t2).cols := by
    rw [hdc]; exact hstops
  have hstopsShape : ∀ r ∈ (dedupRows t2).rows,
      ∃ v : Value, r.getD (idxOf "stops" (dedupRows t2).cols) .na = stopsVal v := by
    intro r hrd
    have hr2 := hmemd r hrd
    rw [ht2] at hr2
    obtain ⟨r1, hr1, rfl⟩ := List.mem_map.mp hr2
    have hi : idxOf "stops" t1.cols < t1.cols.length := idxOf_lt_length hstops
    have hiv : idxOf "stops" t1.cols < r1.length := by
      rw [hwf1 r1 hr1]; exact hi
    refine ⟨r1.getD (idxOf "stops" t1.cols) .na, ?_⟩
    rw [hdc, mapCells_getD _ _ t1.cols r1 _ hi hiv, idxOf_getD hstops]
    simp
  -- membership of the chart/derive columns in the intermediate table
  have hsrc : "source_city" ∈ (dedupRows t2).cols := by
    rw [ht4e] at hsrc4
    rcases List.mem_append.mp hsrc4 with hmem' | hmem'
    · exact hmem'
    · simp at hmem'
  have hdst : "destination_city" ∈ (dedupRows t2).cols := by
    rw [ht4e] at hdst4
    rcases List.mem_append.mp hdst4 with hmem' | hmem'
    · exact hmem'
    · simp at hmem'
  refine ⟨dedupRows t2, hwfd, hstops2, hprice, hdur, hsrc, hdst,
    hpph_not, hroute_not, by rw [hdc, ht1c], dropSeen_nodup [] t2.rows, hstopsShape,
    ?_, ?_⟩
  · rw [ht5e, ht4e]
    simp [List.append_assoc]
  · rw [ht5e, ht4e]
    simp only [List.map_map, Function.comp]
    refine List.map_congr_left ?_
    intro r _
    simp only [Function.comp_apply]
    rw [List.append_assoc]
    rfl

/-! ### Reading cells of a final-table row -/

theorem final_row_decomp {u t' : Table}
    (hrows : t'.rows = u.rows.map (fun r =>
        r ++ [pphFun u.cols r,
              routeFun (u.cols ++ ["price_per_hour"]) (r ++ [pphFun u.cols r])]))
    {row : List Value} (hrow : row ∈ t'.rows) :
    ∃ r ∈ u.rows, row =
      r ++ [pphFun u.cols r,
            routeFun (u.cols ++ ["price_per_hour"]) (r ++ [pphFun u.cols r])] := by
  rw [hrows] at hrow
  obtain ⟨r, hr, heq⟩ := List.mem_map.mp hrow
  exact ⟨r, hr, heq.symm⟩

theorem cellAt_final_base {u t' : Table} {c : String} (hc : c ∈ u.cols)
    (hcols : t'.cols = u.cols ++ ["price_per_hour", "route"])
    {r : List Value} (hlen : r.length = u.cols.length) (x y : Value) :
    t'.cellAt (r ++ [x, y]) c = r.getD (idxOf c u.cols) .na := by
  rw [Table.cellAt, hcols, idxOf_append_left hc]
  have hi : idxOf c u.cols < r.length := by
    rw [hlen]; exact idxOf_lt_length hc
  rw [List.getD_append _ _ _ _ hi]

theorem cellAt_final_pph {u t' : Table} (hpph : "price_per_hour" ∉ u.cols)
    (hcols : t'.cols = u.cols ++ ["price_per_hour", "route"])
    {r : List Value} (hlen : r.length = u.cols.length) (x y : Value) :
    t'.cellAt (r ++ [x, y]) "price_per_hour" = x := by
  rw [Table.cellAt, hcols, idxOf_append_right hpph]
  have h0 : idxOf "price_per_hour" (["price_per_hour", "route"] : List String) = 0 := by
    simp [idxOf]
  rw [h0, Nat.add_zero, ← hlen]
  exact getD_append_len r x [y] .na

theorem cellAt_final_route {u t' : Table} (hroute : "route" ∉ u.cols)
    (hcols : t'.cols = u.cols ++ ["price_per_hour", "route"])
    {r : List Value} (hlen : r.length = u.cols.length) (x y : Value) :
    t'.cellAt (r ++ [x, y]) "route" = y := by
  rw [Table.cellAt, hcols, idxOf_append_right hroute]
  have h1 : idxOf "route" (["price_per_hour", "route"] : List String) = 1 := by
    simp [idxOf]
  rw [h1]
  have hshape : r ++ [x, y] = (r ++ [x]) ++ [y] := (List.append_assoc r [x] [y]).symm
  have hlen2 : (r ++ [x]).length = u.cols.length + 1 := by simp [hlen]
  rw [hshape, ← hlen2]
  exact getD_append_len (r ++ [x]) y [] .na

/-! ### Claim theorems -/

/-- C1, counterexample: on a concrete loaded table whose single row has
`duration = 0` and `price = 100`, the pipeline succeeds and the final
row's `price_per_hour` cell is positive infinity, not the missing-value
marker — refuting the claim that `price_per_hour` is missing wherever
`duration = 0`. -/
theorem pricePerHour_zero_duration_not_missing :
    pipeline c1T = .ok c1Out ∧
    c1Out.cellAt c1Row "duration" = .num 0 ∧
    c1Out.cellAt c1Row "price_per_hour" = .inf ∧
    Value.inf ≠ Value.na :=
  ⟨rfl, rfl, rfl, by decide⟩

/-- C1 (amended): for every row of the final table, `price_per_hour`
equals the IEEE division of the row's `price` by its `duration`: exactly
`price / duration` when `duration` is a nonzero finite number, and at
`duration = 0` a signed infinity (NaN only when `price = 0`), not the
missing-value marker and not an error. -/
theorem pricePerHour_spec (t t' : Table) (p d : ℚ) (hwf : t.WF)
    (h1 : "price_per_hour" ∉ t.cols) (h2 : "route" ∉ t.cols)
    (hok : pipeline t = .ok t') (row : List Value) (hrow : row ∈ t'.rows) :
    t'.cellAt row "price_per_hour" =
      vdiv (t'.cellAt row "price") (t'.cellAt row "duration") ∧
    (d ≠ 0 → vdiv (.num p) (.num d) = .num (p / d)) ∧
    vdiv (.num p) (.num 0) =
      (if p = 0 then Value.na else if 0 < p then Value.inf else Value.neginf) ∧
    Value.inf ≠ Value.na ∧ Value.neginf ≠ Value.na := by
  obtain ⟨u, hwfu, _, hpr, hdu, _, _, hpph, hrte, _, _, _, hcols, hrows⟩ :=
    pipeline_ok_struct hwf h1 h2 hok
  obtain ⟨r, hr, rfl⟩ := final_row_decomp hrows hrow
  have hlen := hwfu r hr
  refine ⟨?_, fun hd => by simp [vdiv, hd], by simp [vdiv], by decide, by decide⟩
  rw [cellAt_final_pph hpph hcols hlen,
      cellAt_final_base hpr hcols hlen, cellAt_final_base hdu hcols hlen]
  rfl

/-- C1 witness: the amended statement instantiated on the concrete run
`exIn ↦ exOut` at its first row. -/
theorem pricePerHour_spec_witness :
    exOut.cellAt exRow1 "price_per_hour" =
      vdiv (exOut.cellAt exRow1 "price") (exOut.cellAt exRow1 "duration") :=
  (pricePerHour_spec exIn exOut 5000 1 (by decide) (by decide) (by decide) rfl
    exRow1 (by decide)).1

/-- C2: after cleaning, the final table's row list is duplicate-free,
the table the Visualizer passes on to the Writer is the same table (so
every later stage reads a duplicate-free table), and the Writer
serializes exactly that table. -/
theorem cleaned_rows_duplicate_free (t t' : Table) (hwf : t.WF)
    (h1 : "price_per_hour" ∉ t.cols) (h2 : "route" ∉ t.cols)
    (hok : pipeline t = .ok t') :
    t'.rows.Nodup ∧ (visualize t').2.rows.Nodup ∧
    (writeOutput (visualize t').2).2 = toCsv t' := by
  obtain ⟨u, _, _, _, _, _, _, _, _, _, hnodup, _, hcols, hrows⟩ :=
    pipeline_ok_struct hwf h1 h2 hok
  have hinj : Function.Injective (fun r : List Value =>
      r ++ [pphFun u.cols r,
            routeFun (u.cols ++ ["price_per_hour"]) (r ++ [pphFun u.cols r])]) := by
    intro a b hab
    simp only at hab
    have e1 : ∀ (r : List Value) (x y : Value), r ++ [x, y] = (r ++ [x]) ++ [y] :=
      fun r x y => (List.append_assoc r [x] [y]).symm
    rw [e1 a, e1 b] at hab
    have hab2 := congrArg List.dropLast hab
    rw [List.dropLast_concat, List.dropLast_concat] at hab2
    have hab3 := congrArg List.dropLast hab2
    rw [List.dropLast_concat, List.dropLast_concat] at hab3
    exact hab3
  have hn : t'.rows.Nodup := by
    rw [hrows]; exact hnodup.map hinj
  exact ⟨hn, hn, rfl⟩

/-- C2 witness: the statement instantiated on the concrete run
`exIn ↦ exOut`. -/
theorem cleaned_rows_duplicate_free_witness :
    exOut.rows.Nodup ∧ (visualize exOut).2.rows.Nodup ∧
    (writeOutput (visualize exOut).2).2 = toCsv exOut :=
  cleaned_rows_duplicate_free exIn exOut (by decide) (by decide) (by decide) rfl

/-- C3: after cleaning, every row's `stops` cell lies in
{0, 1, 2, missing} and is not a string; the fixed lookup maps "zero",
"one", "two_or_more" to 0, 1, 2, and every other value to the
missing-value marker. -/
theorem stops_mapped_to_finite_domain (t t' : Table) (hwf : t.WF)
    (h1 : "price_per_hour" ∉ t.cols) (h2 : "route" ∉ t.cols)
    (hok : pipeline t = .ok t') (row : List Value) (hrow : row ∈ t'.rows) :
    (t'.cellAt row "stops" = .num 0 ∨ t'.cellAt row "stops" = .num 1 ∨
     t'.cellAt row "stops" = .num 2 ∨ t'.cellAt row "stops" = .na) ∧
    (∀ s : String, t'.cellAt row "stops" ≠ .str s) ∧
    stopsVal (.str "zero") = .num 0 ∧ stopsVal (.str "one") = .num 1 ∧
    stopsVal (.str "two_or_more") = .num 2 ∧
    (∀ v : Value, v ≠ .str "zero" → v ≠ .str "one" → v ≠ .str "two_or_more" →
      stopsVal v = .na) := by
  obtain ⟨u, hwfu, hst, _, _, _, _, hpph, hrte, _, _, hshape, hcols, hrows⟩ :=
    pipeline_ok_struct hwf h1 h2 hok
  obtain ⟨r, hr, rfl⟩ := final_row_decomp hrows hrow
  have hlen := hwfu r hr
  obtain ⟨v, hv⟩ := hshape r hr
  have hcell : t'.cellAt
      (r ++ [pphFun u.cols r,
             routeFun (u.cols ++ ["price_per_hour"]) (r ++ [pphFun u.cols r])])
      "stops" = stopsVal v := by
    rw [cellAt_final_base hst hcols hlen]
    exact hv
  have hdomain : stopsVal v = .num 0 ∨ stopsVal v = .num 1 ∨
      stopsVal v = .num 2 ∨ stopsVal v = .na := by
    rw [stopsVal]
    split_ifs <;> simp
  refine ⟨by rw [hcell]; exact hdomain, ?_, rfl, rfl, rfl, ?_⟩
  · intro s
    rw [hcell]
    rcases hdomain with h | h | h | h <;> rw [h] <;> simp
  · intro w hz ho htw
    rw [stopsVal, if_neg hz, if_neg ho, if_neg htw]

/-- C3 witness: the statement's domain disjunct instantiated on the
concrete run `exIn ↦ exOut` at its first row (whose input `stops` was
"two_or_more"). -/
theorem stops_mapped_to_finite_domain_witness :
    exOut.cellAt exRow1 "stops" = .num 0 ∨ exOut.cellAt exRow1 "stops" = .num 1 ∨
    exOut.cellAt exRow1 "stops" = .num 2 ∨ exOut.cellAt exRow1 "stops" = .na :=
  (stops_mapped_to_finite_domain exIn exOut (by decide) (by decide) (by decide) rfl
    exRow1 (by decide)).1

/-- C4, counterexample: on a concrete loaded table with no `index`
column, dropping the column is not a silent no-op — both the drop and
therefore the whole pipeline abort with a KeyError. -/
theorem drop_index_missing_not_silent :
    dropCol c4T "index" = .error "KeyError: index" ∧
    pipeline c4T = .error "KeyError: index" :=
  ⟨rfl, rfl⟩

/-- C4 (amended): for every loaded table with no column named `index`,
the Cleaner's drop of the `index` column raises a KeyError (pandas'
default `errors='raise'`), aborting the pipeline; it is not a silent
no-op. -/
theorem drop_index_missing_raises (t : Table) (h : "index" ∉ t.cols) :
    dropCol t "index" = .error ("KeyError: " ++ "index") ∧
    pipeline t = .error ("KeyError: " ++ "index") := by
  have hd : dropCol t "index" = .error ("KeyError: " ++ "index") := by
    rw [dropCol, if_neg h]
  exact ⟨hd, by rw [pipeline, hd]; rfl⟩

/-- C4 witness: the amended statement instantiated on the concrete
table `c4T`. -/
theorem drop_index_missing_raises_witness :
    dropCol c4T "index" = .error ("KeyError: " ++ "index") ∧
    pipeline c4T = .error ("KeyError: " ++ "index") :=
  drop_index_missing_raises c4T (by decide)

/-- C5: for every row of the final table, the derived `route` cell is
the concatenation of the row's `source_city`, the fixed separator
`" to "`, and its `destination_city`; when both cities are strings the
result is exactly the string `source_city ++ " to " ++
destination_city`. -/
theorem route_is_concatenation (t t' : Table) (s d : String) (hwf : t.WF)
    (h1 : "price_per_hour" ∉ t.cols) (h2 : "route" ∉ t.cols)
    (hok : pipeline t = .ok t') (row : List Value) (hrow : row ∈ t'.rows) :
    t'.cellAt row "route" =
      vconcat (vconcat (t'.cellAt row "source_city") (.str " to "))
        (t'.cellAt row "destination_city") ∧
    (t'.cellAt row "source_city" = .str s →
     t'.cellAt row "destination_city" = .str d →
     t'.cellAt row "route" = .str (s ++ " to " ++ d)) := by
  obtain ⟨u, hwfu, _, _, _, hsrc, hdst, hpph, hrte, _, _, _, hcols, hrows⟩ :=
    pipeline_ok_struct hwf h1 h2 hok
  obtain ⟨r, hr, rfl⟩ := final_row_decomp hrows hrow
  have hlen := hwfu r hr
  have hsi : idxOf "source_city" u.cols < r.length := by
    rw [hlen]; exact idxOf_lt_length hsrc
  have hdi : idxOf "destination_city" u.cols < r.length := by
    rw [hlen]; exact idxOf_lt_length hdst
  have hmain : t'.cellAt
      (r ++ [pphFun u.cols r,
             routeFun (u.cols ++ ["price_per_hour"]) (r ++ [pphFun u.cols r])])
      "route" =
      vconcat (vconcat (r.getD (idxOf "source_city" u.cols) .na) (.str " to "))
        (r.getD (idxOf "destination_city" u.cols) .na) := by
    rw [cellAt_final_route hrte hcols hlen]
    simp only [routeFun]
    rw [idxOf_append_left hsrc, idxOf_append_left hdst,
        List.getD_append _ _ _ _ hsi, List.getD_append _ _ _ _ hdi]
  constructor
  · rw [hmain, cellAt_final_base hsrc hcols hlen, cellAt_final_base hdst hcols hlen]
  · intro hs hd
    rw [cellAt_final_base hsrc hcols hlen] at hs
    rw [cellAt_final_base hdst hcols hlen] at hd
    rw [hmain, hs, hd]
    rfl

/-- C5 witness: the statement instantiated on the concrete run
`exIn ↦ exOut` at its first row. -/
theorem route_is_concatenation_witness :
    exOut.cellAt exRow1 "route" = .str ("Delhi" ++ " to " ++ "Mumbai") :=
  (route_is_concatenation exIn exOut "Delhi" "Mumbai" (by decide) (by decide)
    (by decide) rfl exRow1 (by decide)).2 (by decide) (by decide)

/-- C6: the run is deterministic — on equal in-memory input tables the
full run (report, chart sequence, output path and serialized CSV bytes)
is identical, so a rerun on the same input produces a byte-identical
cleaned CSV. -/
theorem pipeline_deterministic (t₁ t₂ : Table) (h : t₁ = t₂) :
    fullRun t₁ = fullRun t₂ := by
  rw [h]

/-- C6 witness: the statement instantiated on the concrete input
`exIn`. -/
theorem pipeline_deterministic_witness : fullRun exIn = fullRun exIn :=
  pipeline_deterministic exIn exIn rfl

/-- C7: the Visualizer is read-only — the table it passes on after
rendering every chart is the input table, row for row and column for
column. -/
theorem visualize_leaves_table_unchanged (t : Table) :
    (visualize t).2 = t ∧ (visualize t).2.rows = t.rows ∧
    (visualize t).2.cols = t.cols :=
  ⟨rfl, rfl, rfl⟩

/-- C8: the Writer writes to the fixed path
`cleaned_airlines_data.csv`; the serialized CSV's first line is the
header (the comma-joined column names) and the remaining lines are
exactly the rows' cells — no index column is added. -/
theorem writer_fixed_path_header_no_index (t : Table) :
    writeOutput t = ("cleaned_airlines_data.csv", toCsv t) ∧
    (csvLines t).head? = some (String.intercalate "," t.cols) ∧
    (csvLines t).tail = t.rows.map rowLine ∧
    (csvLines t).length = t.rows.length + 1 :=
  ⟨rfl, rfl, rfl, by simp [csvLines]⟩

/-- C9: duplicate removal keeps a subsequence of the original rows (so
no row is added, modified, or reordered), keeps exactly the set of
original rows with no duplicates, and orders survivors by the position
of their first occurrence — i.e. it keeps the first occurrence of each
group of equal rows; the columns are untouched. -/
theorem dedup_keeps_first_occurrences (t : Table) :
    (dedupRows t).cols = t.cols ∧
    (dedupRows t).rows.Sublist t.rows ∧
    (∀ r, r ∈ (dedupRows t).rows ↔ r ∈ t.rows) ∧
    (dedupRows t).rows.Nodup ∧
    (dedupRows t).rows.Pairwise (fun a b => idxOf a t.rows < idxOf b t.rows) :=
  ⟨rfl, dropSeen_sublist [] t.rows,
   fun r => by simpa using dropSeen_mem [] t.rows r,
   dropSeen_nodup [] t.rows, dropSeen_pairwise [] t.rows⟩

/-- C10: the final table's column order is the input header order with
every `index` column removed and `price_per_hour` then `route` appended
at the end, and the written CSV's header line is exactly these columns
joined by commas. -/
theorem final_column_order (t t' : Table) (hwf : t.WF)
    (h1 : "price_per_hour" ∉ t.cols) (h2 : "route" ∉ t.cols)
    (hok : pipeline t = .ok t') :
    t'.cols = t.cols.filter (fun x => x != "index") ++ ["price_per_hour", "route"] ∧
    (csvLines t').head? =
      some (String.intercalate ","
        (t.cols.filter (fun x => x != "index") ++ ["price_per_hour", "route"])) := by
  obtain ⟨u, _, _, _, _, _, _, _, _, hu, _, _, hcols, _⟩ :=
    pipeline_ok_struct hwf h1 h2 hok
  have hc : t'.cols =
      t.cols.filter (fun x => x != "index") ++ ["price_per_hour", "route"] := by
    rw [hcols, hu]
  refine ⟨hc, ?_⟩
  rw [show (csvLines t').head? = some (String.intercalate "," t'.cols) from rfl, hc]

/-- C10 witness: the statement's column-order component instantiated on
the concrete run `exIn ↦ exOut`. -/
theorem final_column_order_witness :
    exOut.cols =
      exIn.cols.filter (fun x => x != "index") ++ ["price_per_hour", "route"] :=
  (final_column_order exIn exOut (by decide) (by decide) (by decide) rfl).1

end AirlinesEDA
